import Mathlib

/-!
# Connect Four (connect4-sfml): rule engine and popup state machine

A shallow embedding of `connect4_sfml.cpp` and `popup.cpp`:
the board, `checkWin`, `dropPiece`, `checkDraw`, `resetGame`, the event
handling of `main`, and the popup fade (`initPopup`, `updatePopup`,
`resetPopup`).  C++ `int` values are modelled as `Int`; every index that
the program computes stays within a few units of the board bounds, so no
overflow can occur.
-/

namespace Connect4

/-! ## Game constants and the board -/

/-- `constexpr int ROWS = 6;` -/
abbrev ROWS : Nat := 6

/-- `constexpr int COLS = 7;` -/
abbrev COLS : Nat := 7

/-- `std::vector<std::vector<int>> board(ROWS, std::vector<int>(COLS, 0))`:
a `ROWS × COLS` grid of `int`, 0 = Empty, 1 = Red, 2 = Yellow. -/
abbrev Board := Fin ROWS → Fin COLS → Int

/-- The bounds test `r >= 0 && r < ROWS && c >= 0 && c < COLS`. -/
def inBounds (r c : Int) : Prop := 0 ≤ r ∧ r < ROWS ∧ 0 ≤ c ∧ c < COLS

instance (r c : Int) : Decidable (inBounds r c) := by
  unfold inBounds; infer_instance

/-- The read `board[r][c]` with `int` indices.  An out-of-range read is
undefined behaviour in the source; the model returns 0 there. -/
def Board.get (b : Board) (r c : Int) : Int :=
  if h : inBounds r c then b ⟨r.toNat, by unfold inBounds at h; omega⟩ ⟨c.toNat, by unfold inBounds at h; omega⟩
  else 0

/-- The write `board[r][c] = v` with `int` indices.  An out-of-range write
is undefined behaviour in the source; the model leaves the board as is. -/
def Board.set (b : Board) (r c v : Int) : Board :=
  fun i j => if (i.val : Int) = r ∧ (j.val : Int) = c then v else b i j

/-- The board of the initial state: every cell 0. -/
def emptyBoard : Board := fun _ _ => 0

/-! ## `checkWin` -/

/-- The loop `for (int i = -3; i <= 3; ++i)` of the lambda `countDir`:
`n` iterations remain, `i` is the loop variable, `count` the counter. -/
def countDirLoop (b : Board) (lastRow lastCol player dr dc : Int) : Nat → Int → Int → Bool
  | 0, _, _ => false
  | n + 1, i, count =>
    let r := lastRow + i * dr
    let c := lastCol + i * dc
    if inBounds r c then
      if b.get r c = player then
        if count + 1 ≥ 4 then true
        else countDirLoop b lastRow lastCol player dr dc n (i + 1) (count + 1)
      else countDirLoop b lastRow lastCol player dr dc n (i + 1) 0
    else countDirLoop b lastRow lastCol player dr dc n (i + 1) count

/-- The lambda `countDir(dr, dc)` inside `checkWin`. -/
def countDir (b : Board) (lastRow lastCol player dr dc : Int) : Bool :=
  countDirLoop b lastRow lastCol player dr dc 7 (-3) 0

/-- `bool checkWin(int lastRow, int lastCol)`. -/
def checkWin (b : Board) (lastRow lastCol : Int) : Bool :=
  if lastRow = -1 then false
  else
    let player := b.get lastRow lastCol
    if countDir b lastRow lastCol player 0 1 then true
    else if countDir b lastRow lastCol player 1 0 then true
    else if countDir b lastRow lastCol player 1 1 then true
    else if countDir b lastRow lastCol player 1 (-1) then true
    else false

/-! ## `dropPiece`, the click-time scan, `checkDraw` -/

/-- The loop `for (int r = ROWS - 1; r >= 0; --r) if (board[r][col] == 0) ...`
of the click handler: `n` rows remain, the row
inspected next is `n - 1`; the result is the row found, or -1. -/
def scanColumn (b : Board) (col : Int) : Nat → Int
  | 0 => -1
  | n + 1 => if b.get (n : Int) col = 0 then (n : Int) else scanColumn b col n

/-- The click handler's computation of `targetRow`. -/
def targetRow (b : Board) (clickedCol : Int) : Int := scanColumn b clickedCol ROWS

/-- The loop of `dropPiece`: `n` rows remain, the row inspected next is
`n - 1`; on the first Empty cell the piece is written and the row
returned, otherwise -1 and the board as it was. -/
def dropPieceLoop (b : Board) (col player : Int) : Nat → Int × Board
  | 0 => (-1, b)
  | n + 1 =>
    if b.get (n : Int) col = 0 then ((n : Int), b.set (n : Int) col player)
    else dropPieceLoop b col player n

/-- `int dropPiece(int col, int player)`: the returned row and the board
afterwards. -/
def dropPiece (b : Board) (col player : Int) : Int × Board :=
  if col < 0 ∨ col ≥ COLS then (-1, b)
  else dropPieceLoop b col player ROWS

/-- The loop of `checkDraw`: columns `c, c+1, ...` with `n` remaining. -/
def checkDrawLoop (b : Board) : Nat → Int → Bool
  | 0, _ => true
  | n + 1, c => if b.get 0 c = 0 then false else checkDrawLoop b n (c + 1)

/-- `bool checkDraw()`. -/
def checkDraw (b : Board) : Bool := checkDrawLoop b COLS 0

/-! ## The popup (`popup.h`, `popup.cpp`) -/

/-- `struct PopupState`; the `float alpha` is modelled as an exact rational. -/
structure PopupState where
  isActive : Bool
  winningPlayer : Int
  alpha : ℚ
  message : String
  deriving DecidableEq

/-- `constexpr float FADE_SPEED = 600.0f;` -/
def FADE_SPEED : ℚ := 600

/-- The initial value `PopupState g_popup = {false, 0, 0.0f, ""}` of the popup. -/
def g_popup_init : PopupState :=
  { isActive := false, winningPlayer := 0, alpha := 0, message := "" }

/-- `void initPopup(int winningPlayer, bool isDraw)`. -/
def initPopup (p : PopupState) (winningPlayer : Int) (isDraw : Bool) : PopupState :=
  { p with
    isActive := true
    winningPlayer := winningPlayer
    alpha := 0
    message :=
      if isDraw then "It's a DRAW!"
      else if winningPlayer = 1 then "Player 1 (Red) WINS!"
      else "Player 2 (Yellow) WINS!" }

/-- `void updatePopup(float deltaTime)`. -/
def updatePopup (p : PopupState) (deltaTime : ℚ) : PopupState :=
  if !p.isActive then p
  else if p.alpha < 255 then
    { p with alpha := min (p.alpha + FADE_SPEED * deltaTime) 255 }
  else p

/-- `void resetPopup()`. -/
def resetPopup (p : PopupState) : PopupState :=
  { p with isActive := false, winningPlayer := 0, alpha := 0, message := "" }

/-! ## The animation collaborator (`animation.h`)

`animation.h` and its implementation are not part of the sources at hand;
`main` uses `initAnimation`, `isAnimationActive`, `updateAnimation`,
`resetAnimation` and the fields `column`, `targetRow`, `player` of
`g_animation`. -/

/-- Modelled from the spec: the state `g_animation` of the animation module
(`animation.h` is missing).  It holds the pending move `column`,
`targetRow`, `player` handed over at click time and whether a fall is in
progress. -/
structure AnimationState where
  isActive : Bool
  column : Int
  targetRow : Int
  player : Int
  deriving DecidableEq

/-- Modelled from the spec: the initial `g_animation` (missing from the
sources): no fall in progress. -/
def g_animation_init : AnimationState :=
  { isActive := false, column := 0, targetRow := 0, player := 0 }

/-- Modelled from the spec: `initAnimation(col, targetRow, player)` (missing
from the sources), the `begin(column, targetRow, player)` of the animation
interface: it starts a fall toward `targetRow` in `column`. -/
def initAnimation (_a : AnimationState) (col targetRow player : Int) : AnimationState :=
  { isActive := true, column := col, targetRow := targetRow, player := player }

/-- Modelled from the spec: `isAnimationActive()` (missing from the sources):
true while a fall is in progress. -/
def isAnimationActive (a : AnimationState) : Bool := a.isActive

/-- Modelled from the spec: `updateAnimation(deltaTime)` (missing from the
sources), the `onTick` of the animation interface.  The easing and timing
are not specified; whether the fall completes on this tick is the input
`finished`.  The pending move stays readable after completion, as `main`
reads it then. -/
def updateAnimation (a : AnimationState) (_deltaTime : ℚ) (finished : Bool) : AnimationState :=
  { a with isActive := a.isActive && !finished }

/-- Modelled from the spec: `resetAnimation()` (missing from the sources):
clears any in-flight animation. -/
def resetAnimation (a : AnimationState) : AnimationState :=
  { a with isActive := false }

/-! ## Game state, `resetGame` and the body of the main loop -/

/-- The global variables of the program. -/
structure Game where
  board : Board
  currentPlayer : Int
  gameOver : Bool
  statusText : String
  g_animation : AnimationState
  g_popup : PopupState

/-- The state at program start. -/
def initialGame : Game :=
  { board := emptyBoard
    currentPlayer := 1
    gameOver := false
    statusText := "Player 1 (Red)'s Turn"
    g_animation := g_animation_init
    g_popup := g_popup_init }

/-- The inner loop `for (int c = 0; c < COLS; ++c) board[r][c] = 0` of
`resetGame`: `n` columns remain, `c` is the loop variable. -/
def clearRowLoop (b : Board) (r : Int) : Nat → Int → Board
  | 0, _ => b
  | n + 1, c => clearRowLoop (b.set r c 0) r n (c + 1)

/-- The outer loop `for (int r = 0; r < ROWS; ++r)` of `resetGame`. -/
def clearBoardLoop (b : Board) : Nat → Int → Board
  | 0, _ => b
  | n + 1, r => clearBoardLoop (clearRowLoop b r COLS 0) n (r + 1)

/-- The two nested loops of `resetGame` that clear the board. -/
def clearBoard (b : Board) : Board := clearBoardLoop b ROWS 0

/-- `void resetGame()`. -/
def resetGame (g : Game) : Game :=
  { board := clearBoard g.board
    currentPlayer := 1
    gameOver := false
    statusText := "Player 1 (Red)'s Turn"
    g_animation := resetAnimation g.g_animation
    g_popup := resetPopup g.g_popup }

/-- The left-click branch of the event loop of `main`, with `clickedCol`
the column computed from the mouse position. -/
def handleClick (g : Game) (clickedCol : Int) : Game :=
  if !g.gameOver && !isAnimationActive g.g_animation then
    let targetRow := targetRow g.board clickedCol
    if targetRow ≠ -1 then
      { g with g_animation := initAnimation g.g_animation clickedCol targetRow g.currentPlayer }
    else g
  else g

/-- The block of `main` run when the animation has just finished: write the
piece, then `checkWin`, then `checkDraw`, else switch the player. -/
def commitMove (g : Game) : Game :=
  let col := g.g_animation.column
  let row := g.g_animation.targetRow
  let player := g.g_animation.player
  let board := g.board.set row col player
  if checkWin board row col then
    { g with
      board := board
      gameOver := true
      statusText := if player = 1 then "Player 1 (Red) WINS!" else "Player 2 (Yellow) WINS!"
      g_popup := initPopup g.g_popup player false }
  else if checkDraw board then
    { g with
      board := board
      gameOver := true
      statusText := "Game Over - It's a DRAW!"
      g_popup := initPopup g.g_popup 0 true }
  else
    let currentPlayer := if g.currentPlayer = 1 then 2 else 1
    { g with
      board := board
      currentPlayer := currentPlayer
      statusText :=
        if currentPlayer = 1 then "Player 1 (Red)'s Turn" else "Player 2 (Yellow)'s Turn" }

/-- The part of one iteration of the main loop after the event loop:
animation update, commit when the animation has just finished, popup
update. -/
def frameUpdate (g : Game) (deltaTime : ℚ) (finished : Bool) : Game :=
  let g1 :=
    if isAnimationActive g.g_animation then
      let g' := { g with g_animation := updateAnimation g.g_animation deltaTime finished }
      if !isAnimationActive g'.g_animation then commitMove g' else g'
    else g
  { g1 with g_popup := updatePopup g1.g_popup deltaTime }

/-- What the main loop reacts to: a left click on a column, the key R, and
the per-frame update with its `deltaTime` (and whether the fall completes
during it). -/
inductive Event where
  | click (clickedCol : Int)
  | keyR
  | tick (deltaTime : ℚ) (finished : Bool)

/-- One reaction of the main loop. -/
def step (g : Game) : Event → Game
  | .click clickedCol => handleClick g clickedCol
  | .keyR => resetGame g
  | .tick deltaTime finished => frameUpdate g deltaTime finished

/-- The state after a sequence of events. -/
def run (g : Game) (es : List Event) : Game := es.foldl step g

/-! ## Specification vocabulary for `checkWin` -/

/-- A run of `len` consecutive in-bounds cells on the axis `(dr, dc)` that
includes `(row, col)` (it starts `-k` steps before it, `0 ≤ -k < len`) and
whose cells all hold `player`. -/
def RunThrough (b : Board) (row col dr dc player : Int) (len : Nat) : Prop :=
  ∃ k : Int, -(len : Int) < k ∧ k ≤ 0 ∧ ∀ j : Int, 0 ≤ j → j < len →
    inBounds (row + (k + j) * dr) (col + (k + j) * dc) ∧
      b.get (row + (k + j) * dr) (col + (k + j) * dc) = player

/-- The four axes of `checkWin`: horizontal, vertical, down-right diagonal,
down-left diagonal. -/
def axes : List (Int × Int) := [(0, 1), (1, 0), (1, 1), (1, -1)]

/-- An isolated piece: none of the (up to eight) in-bounds neighbours of
`(row, col)` holds the same value. -/
def Isolated (b : Board) (row col : Int) : Prop :=
  ∀ dr dc : Int, -1 ≤ dr → dr ≤ 1 → -1 ≤ dc → dc ≤ 1 → (dr ≠ 0 ∨ dc ≠ 0) →
    inBounds (row + dr) (col + dc) → b.get (row + dr) (col + dc) ≠ b.get row col

/-- The longest run through `(row, col)` over the four axes has length
exactly `n`: some axis has a run of `n` cells, none has a longer one. -/
def LongestRun (b : Board) (row col : Int) (n : Nat) : Prop :=
  (∃ d ∈ axes, RunThrough b row col d.1 d.2 (b.get row col) n) ∧
    ∀ d ∈ axes, ∀ len : Nat, RunThrough b row col d.1 d.2 (b.get row col) len → len ≤ n

/-- A board with Red on the bottom row in columns 0..3. -/
def rowOfFour : Board :=
  (((emptyBoard.set 5 0 1).set 5 1 1).set 5 2 1).set 5 3 1

/-- Column `col` has no Empty cell. -/
def ColumnFull (b : Board) (col : Int) : Prop :=
  ∀ r : Int, 0 ≤ r → r < ROWS → b.get r col ≠ 0

/-- A board with one Red piece at the bottom of column 0. -/
def onePiece : Board := emptyBoard.set 5 0 1

/-- A board whose column 0 is full (alternating Red and Yellow). -/
def fullColumn : Board :=
  (((((emptyBoard.set 5 0 1).set 4 0 2).set 3 0 1).set 2 0 2).set 1 0 1).set 0 0 2

/-- A game in progress on `fullColumn`, Red to move, nothing pending. -/
def fullColumnGame : Game := { initialGame with board := fullColumn }

/-- A full board but for the cell `(0, 3)`: Yellow on the rest of row 0,
below it the pattern of pairs that has no four in a line. -/
def almostFull : Board :=
  fun i j =>
    if i.val = 0 then (if j.val = 3 then 0 else 2)
    else if (j.val / 2 + i.val) % 2 = 0 then 1 else 2

/-- Yellow's piece for the last free cell `(0, 3)` of `almostFull` has just
finished falling and awaits the commit. -/
def lastCellGame : Game :=
  { board := almostFull
    currentPlayer := 2
    gameOver := false
    statusText := "Player 2 (Yellow)'s Turn"
    g_animation := { isActive := false, column := 3, targetRow := 0, player := 2 }
    g_popup := g_popup_init }

/-- The gravity invariant: in no column does an Empty cell lie below (at
a greater row index than) an occupied cell. -/
def Gravity (b : Board) : Prop :=
  ∀ (c : Fin COLS) (r r' : Fin ROWS), r < r' → b r c ≠ 0 → b r' c ≠ 0

/-- A full board: the pattern of pairs that has no four in a line. -/
def fullBoard : Board :=
  fun i j => if (j.val / 2 + i.val) % 2 = 0 then 1 else 2

/-- The pending move, if a fall is in progress, is a landing slot of the
current board: an in-range column, the row the scan finds there now, and a
non-Empty player value. -/
def PendingOk (g : Game) : Prop :=
  g.g_animation.isActive = true →
    0 ≤ g.g_animation.column ∧ g.g_animation.column < COLS ∧
    g.g_animation.targetRow = targetRow g.board g.g_animation.column ∧
    targetRow g.board g.g_animation.column ≠ -1 ∧
    g.g_animation.player ≠ 0

/-- The invariant of the states reached by in-range clicks, ticks and
resets. -/
def GameInv (g : Game) : Prop :=
  Gravity g.board ∧ (g.currentPlayer = 1 ∨ g.currentPlayer = 2) ∧ PendingOk g

/-- Every click of the sequence is on a column in `0..COLS-1`. -/
def ClicksInRange (es : List Event) : Prop :=
  ∀ c : Int, Event.click c ∈ es → 0 ≤ c ∧ c < COLS

/-- The occupied cells of every column form one contiguous run that starts
at the bottom row: column `c` has a height `h` and its occupied cells are
exactly the `h` bottom-most ones. -/
def ContiguousFromBottom (b : Board) : Prop :=
  ∀ c : Fin COLS, ∃ h : Nat, h ≤ ROWS ∧ ∀ r : Fin ROWS, (b r c ≠ 0 ↔ ROWS - h ≤ r.val)

/-- Red clicks column 3 and the piece finishes its fall. -/
def oneMove : List Event := [Event.click 3, Event.tick 1 true]

/-- The event makes the main loop commit the pending move: a tick on which
the animation was active before `updateAnimation` and is not after. -/
def isCommit (g : Game) : Event → Bool
  | .tick deltaTime finished =>
    isAnimationActive g.g_animation &&
      !isAnimationActive (updateAnimation g.g_animation deltaTime finished)
  | _ => false

/-- The commit of the pending move of `g` is not terminal: on the board with
the piece written, `checkWin` at the committed cell and `checkDraw` are
both false. -/
def CommitNonTerminal (g : Game) : Prop :=
  checkWin (g.board.set g.g_animation.targetRow g.g_animation.column g.g_animation.player)
      g.g_animation.targetRow g.g_animation.column = false ∧
    checkDraw (g.board.set g.g_animation.targetRow g.g_animation.column g.g_animation.player)
      = false

/-- The number of moves committed while the events `es` are handled from `g`. -/
def commitCount : Game → List Event → Nat
  | _, [] => 0
  | g, e :: es => (if isCommit g e then 1 else 0) + commitCount (step g e) es

/-- The events `es` handled from `g` contain no reset, and every move they
commit is non-terminal. -/
def NonTerminalMoves : Game → List Event → Prop
  | _, [] => True
  | g, e :: es =>
    e ≠ Event.keyR ∧ (isCommit g e = true → CommitNonTerminal g) ∧
      NonTerminalMoves (step g e) es

/-- Red and Yellow each click column 3 and each piece finishes its fall. -/
def twoMoves : List Event :=
  [Event.click 3, Event.tick 1 true, Event.click 3, Event.tick 1 true]

/-- Yellow leaves column 0 to Red, who stacks four pieces there: seven
moves, the last one wins. -/
def redWins : List Event :=
  [Event.click 0, Event.tick 1 true, Event.click 1, Event.tick 1 true,
   Event.click 0, Event.tick 1 true, Event.click 1, Event.tick 1 true,
   Event.click 0, Event.tick 1 true, Event.click 1, Event.tick 1 true,
   Event.click 0, Event.tick 1 true]

/-- The popup after a sequence of `updatePopup` calls with the given
`deltaTime`s. -/
def fade (p : PopupState) (dts : List ℚ) : PopupState := dts.foldl updatePopup p

/-- What `countDir` sees at offset `i`: `none` for a cell out of bounds,
otherwise whether the cell holds `player`. -/
def cellKind (b : Board) (lastRow lastCol player dr dc i : Int) : Option Bool :=
  if inBounds (lastRow + i * dr) (lastCol + i * dc) then
    some (decide (b.get (lastRow + i * dr) (lastCol + i * dc) = player))
  else none

/-- The cells seen by `n` iterations of the loop of `countDir` from offset `i`. -/
def kindsFrom (b : Board) (lastRow lastCol player dr dc : Int) : Nat → Int → List (Option Bool)
  | 0, _ => []
  | n + 1, i => cellKind b lastRow lastCol player dr dc i ::
      kindsFrom b lastRow lastCol player dr dc n (i + 1)

/-- The counter logic of `countDir` on the list of cells seen. -/
def scanKinds : List (Option Bool) → Int → Bool
  | [], _ => false
  | none :: t, count => scanKinds t count
  | some true :: t, count => if count + 1 ≥ 4 then true else scanKinds t (count + 1)
  | some false :: t, _ => scanKinds t 0

/-! ## The sliding-run scan as the specification words it -/

/-- The run-length scan of the specification for one direction vector, as
worded there: for offset `i` from -3 to +3 inspect the cell
`(lastRow + i * dr, lastCol + i * dc)`; if it is in bounds and equal to
`player`, increment the running counter and declare a win the instant the
counter reaches 4; if it is out of bounds or not equal to `player`, reset
the counter to 0.  `n` offsets remain, `i` is the offset, `count` the
counter. -/
def specCountDirLoop (b : Board) (lastRow lastCol player dr dc : Int) : Nat → Int → Int → Bool
  | 0, _, _ => false
  | n + 1, i, count =>
    if inBounds (lastRow + i * dr) (lastCol + i * dc) ∧
        b.get (lastRow + i * dr) (lastCol + i * dc) = player then
      if count + 1 = 4 then true
      else specCountDirLoop b lastRow lastCol player dr dc n (i + 1) (count + 1)
    else specCountDirLoop b lastRow lastCol player dr dc n (i + 1) 0

/-- The specified scan of one direction: offsets -3 to +3, counter from 0. -/
def specCountDir (b : Board) (lastRow lastCol player dr dc : Int) : Bool :=
  specCountDirLoop b lastRow lastCol player dr dc 7 (-3) 0

/-- The specified `checkWin`: false at once for the sentinel row -1;
otherwise, with `player` the occupant of `(lastRow, lastCol)`, true exactly
when the scan of one of the four direction vectors (0,1), (1,0), (1,1),
(1,-1) reports a win. -/
def specCheckWin (b : Board) (lastRow lastCol : Int) : Bool :=
  if lastRow = -1 then false
  else
    specCountDir b lastRow lastCol (b.get lastRow lastCol) 0 1 ||
    specCountDir b lastRow lastCol (b.get lastRow lastCol) 1 0 ||
    specCountDir b lastRow lastCol (b.get lastRow lastCol) 1 1 ||
    specCountDir b lastRow lastCol (b.get lastRow lastCol) 1 (-1)

/-- The counter logic of the specified scan on the list of cells seen: a
cell out of bounds (`none`) and a cell of another value both reset. -/
def specScanKinds : List (Option Bool) → Int → Bool
  | [], _ => false
  | none :: t, _ => specScanKinds t 0
  | some true :: t, count => if count + 1 = 4 then true else specScanKinds t (count + 1)
  | some false :: t, _ => specScanKinds t 0

/-- Red stacked on rows 2..5 of the right-most column 6. -/
def edgeStack : Board :=
  (((emptyBoard.set 5 6 1).set 4 6 1).set 3 6 1).set 2 6 1

/-! ## Theorems -/

theorem countDirLoop_eq_scanKinds (b : Board) (lastRow lastCol player dr dc : Int) (n : Nat) :
    ∀ (i count : Int), countDirLoop b lastRow lastCol player dr dc n i count
      = scanKinds (kindsFrom b lastRow lastCol player dr dc n i) count := by
  induction n with
  | zero => intro i count; simp [countDirLoop, kindsFrom, scanKinds]
  | succ n ih =>
    intro i count
    simp only [countDirLoop, kindsFrom, cellKind]
    by_cases hb : inBounds (lastRow + i * dr) (lastCol + i * dc)
    · by_cases hp : b.get (lastRow + i * dr) (lastCol + i * dc) = player
      · simp only [hb, hp, if_true, decide_True, scanKinds, ih]
      · simp only [hb, hp, if_true, if_false, decide_False, scanKinds, ih]
    · simp only [hb, if_false, scanKinds, ih]

theorem scanKinds_window (a b c d e f : Option Bool)
    (h1 : a ≠ none → b ≠ none) (h2 : b ≠ none → c ≠ none)
    (h3 : f ≠ none → e ≠ none) (h4 : e ≠ none → d ≠ none) :
    (scanKinds [a, b, c, some true, d, e, f] 0 = true ↔
      (a = some true ∧ b = some true ∧ c = some true) ∨
      (b = some true ∧ c = some true ∧ d = some true) ∨
      (c = some true ∧ d = some true ∧ e = some true) ∨
      (d = some true ∧ e = some true ∧ f = some true)) := by
  rcases a with _ | _ | _ <;> rcases b with _ | _ | _ <;> rcases c with _ | _ | _ <;>
  rcases d with _ | _ | _ <;> rcases e with _ | _ | _ <;> rcases f with _ | _ | _ <;>
  first
    | (exfalso; revert h1 h2 h3 h4; decide)
    | decide

theorem cellKind_eq_some_true (b : Board) (lastRow lastCol player dr dc i : Int) :
    cellKind b lastRow lastCol player dr dc i = some true ↔
      inBounds (lastRow + i * dr) (lastCol + i * dc) ∧
        b.get (lastRow + i * dr) (lastCol + i * dc) = player := by
  unfold cellKind
  by_cases hb : inBounds (lastRow + i * dr) (lastCol + i * dc) <;> simp [hb]

theorem cellKind_ne_none (b : Board) (lastRow lastCol player dr dc i : Int) :
    cellKind b lastRow lastCol player dr dc i ≠ none ↔
      inBounds (lastRow + i * dr) (lastCol + i * dc) := by
  unfold cellKind
  by_cases hb : inBounds (lastRow + i * dr) (lastCol + i * dc) <;> simp [hb]

theorem kindsFrom_seven (b : Board) (lastRow lastCol player dr dc : Int) :
    kindsFrom b lastRow lastCol player dr dc 7 (-3) =
      [cellKind b lastRow lastCol player dr dc (-3), cellKind b lastRow lastCol player dr dc (-2),
       cellKind b lastRow lastCol player dr dc (-1), cellKind b lastRow lastCol player dr dc 0,
       cellKind b lastRow lastCol player dr dc 1, cellKind b lastRow lastCol player dr dc 2,
       cellKind b lastRow lastCol player dr dc 3] := by
  norm_num [kindsFrom]

theorem run4_iff (P : Int → Prop) (h0 : P 0) :
    (∃ k : Int, -4 < k ∧ k ≤ 0 ∧ ∀ j : Int, 0 ≤ j → j < 4 → P (k + j)) ↔
      (P (-3) ∧ P (-2) ∧ P (-1)) ∨ (P (-2) ∧ P (-1) ∧ P 1) ∨
      (P (-1) ∧ P 1 ∧ P 2) ∨ (P 1 ∧ P 2 ∧ P 3) := by
  constructor
  · rintro ⟨k, hk1, hk2, h⟩
    have hk : k = -3 ∨ k = -2 ∨ k = -1 ∨ k = 0 := by omega
    have e0 := h 0 (by norm_num) (by norm_num)
    have e1 := h 1 (by norm_num) (by norm_num)
    have e2 := h 2 (by norm_num) (by norm_num)
    have e3 := h 3 (by norm_num) (by norm_num)
    rcases hk with rfl | rfl | rfl | rfl <;> norm_num at e0 e1 e2 e3
    · exact Or.inl ⟨e0, e1, e2⟩
    · exact Or.inr (Or.inl ⟨e0, e1, e3⟩)
    · exact Or.inr (Or.inr (Or.inl ⟨e0, e2, e3⟩))
    · exact Or.inr (Or.inr (Or.inr ⟨e1, e2, e3⟩))
  · rintro (⟨a, b, c⟩ | ⟨a, b, c⟩ | ⟨a, b, c⟩ | ⟨a, b, c⟩)
    · refine ⟨-3, by norm_num, by norm_num, fun j hj0 hj4 => ?_⟩
      have hj : j = 0 ∨ j = 1 ∨ j = 2 ∨ j = 3 := by omega
      rcases hj with rfl | rfl | rfl | rfl <;> norm_num <;> assumption
    · refine ⟨-2, by norm_num, by norm_num, fun j hj0 hj4 => ?_⟩
      have hj : j = 0 ∨ j = 1 ∨ j = 2 ∨ j = 3 := by omega
      rcases hj with rfl | rfl | rfl | rfl <;> norm_num <;> assumption
    · refine ⟨-1, by norm_num, by norm_num, fun j hj0 hj4 => ?_⟩
      have hj : j = 0 ∨ j = 1 ∨ j = 2 ∨ j = 3 := by omega
      rcases hj with rfl | rfl | rfl | rfl <;> norm_num <;> assumption
    · refine ⟨0, by norm_num, by norm_num, fun j hj0 hj4 => ?_⟩
      have hj : j = 0 ∨ j = 1 ∨ j = 2 ∨ j = 3 := by omega
      rcases hj with rfl | rfl | rfl | rfl <;> norm_num <;> assumption

/-- On each of the four axes, `countDir` from an in-bounds cell holding
`player` is true exactly when four consecutive in-bounds cells through the
cell all hold `player`. -/
theorem countDir_iff (b : Board) (lastRow lastCol dr dc : Int)
    (hin : inBounds lastRow lastCol) (hax : (dr, dc) ∈ axes) :
    countDir b lastRow lastCol (b.get lastRow lastCol) dr dc = true ↔
      RunThrough b lastRow lastCol dr dc (b.get lastRow lastCol) 4 := by
  have h0 : cellKind b lastRow lastCol (b.get lastRow lastCol) dr dc 0 = some true := by
    rw [cellKind_eq_some_true]; simpa using hin
  have hconv : ∀ i j : Int, (0 ≤ i ∧ i ≤ j ∨ j ≤ i ∧ i ≤ 0) →
      inBounds (lastRow + j * dr) (lastCol + j * dc) →
      inBounds (lastRow + i * dr) (lastCol + i * dc) := by
    intro i j hij hj
    simp only [axes, List.mem_cons, Prod.mk.injEq, List.mem_singleton, List.not_mem_nil,
      or_false] at hax
    unfold inBounds at *
    rcases hax with ⟨rfl, rfl⟩ | ⟨rfl, rfl⟩ | ⟨rfl, rfl⟩ | ⟨rfl, rfl⟩ <;> omega
  unfold countDir
  rw [countDirLoop_eq_scanKinds, kindsFrom_seven, h0, scanKinds_window]
  · simp only [cellKind_eq_some_true]
    unfold RunThrough
    have h := run4_iff (fun i => inBounds (lastRow + i * dr) (lastCol + i * dc) ∧
        b.get (lastRow + i * dr) (lastCol + i * dc) = b.get lastRow lastCol)
      (by simpa using hin)
    simp only [Nat.cast_ofNat]
    exact h.symm
  · simp only [cellKind_ne_none]; exact hconv (-2) (-3) (by norm_num)
  · simp only [cellKind_ne_none]; exact hconv (-1) (-2) (by norm_num)
  · simp only [cellKind_ne_none]; exact hconv 2 3 (by norm_num)
  · simp only [cellKind_ne_none]; exact hconv 1 2 (by norm_num)

theorem exists_axes_iff (R : Int → Int → Prop) :
    (∃ d ∈ axes, R d.1 d.2) ↔ R 0 1 ∨ R 1 0 ∨ R 1 1 ∨ R 1 (-1) := by
  simp [axes]

theorem checkWin_eq_true_iff (b : Board) (lastRow lastCol : Int)
    (hin : inBounds lastRow lastCol) :
    checkWin b lastRow lastCol = true ↔
      ∃ d ∈ axes, RunThrough b lastRow lastCol d.1 d.2 (b.get lastRow lastCol) 4 := by
  have hne : lastRow ≠ -1 := by unfold inBounds at hin; omega
  have h1 := countDir_iff b lastRow lastCol 0 1 hin (by simp [axes])
  have h2 := countDir_iff b lastRow lastCol 1 0 hin (by simp [axes])
  have h3 := countDir_iff b lastRow lastCol 1 1 hin (by simp [axes])
  have h4 := countDir_iff b lastRow lastCol 1 (-1) hin (by simp [axes])
  rw [exists_axes_iff (fun dr dc => RunThrough b lastRow lastCol dr dc (b.get lastRow lastCol) 4),
    ← h1, ← h2, ← h3, ← h4]
  unfold checkWin
  rw [if_neg hne]
  simp only []
  generalize countDir b lastRow lastCol (b.get lastRow lastCol) 0 1 = c1
  generalize countDir b lastRow lastCol (b.get lastRow lastCol) 1 0 = c2
  generalize countDir b lastRow lastCol (b.get lastRow lastCol) 1 1 = c3
  generalize countDir b lastRow lastCol (b.get lastRow lastCol) 1 (-1) = c4
  cases c1 <;> cases c2 <;> cases c3 <;> cases c4 <;> simp

theorem not_runThrough_four_of_isolated (b : Board) (row col dr dc : Int)
    (hax : (dr, dc) ∈ axes) (hiso : Isolated b row col) :
    ¬ RunThrough b row col dr dc (b.get row col) 4 := by
  rintro ⟨k, hk1, hk2, h⟩
  have hd : -1 ≤ dr ∧ dr ≤ 1 ∧ -1 ≤ dc ∧ dc ≤ 1 ∧ (dr ≠ 0 ∨ dc ≠ 0) := by
    simp only [axes, List.mem_cons, Prod.mk.injEq, List.mem_singleton, List.not_mem_nil,
      or_false] at hax
    rcases hax with ⟨rfl, rfl⟩ | ⟨rfl, rfl⟩ | ⟨rfl, rfl⟩ | ⟨rfl, rfl⟩ <;> decide
  obtain ⟨hd1, hd2, hd3, hd4, hd5⟩ := hd
  simp only [Nat.cast_ofNat] at hk1 h
  by_cases hk : k = 0
  · subst hk
    have e := h 1 (by norm_num) (by norm_num)
    norm_num at e
    exact hiso dr dc hd1 hd2 hd3 hd4 hd5 e.1 e.2
  · have e := h (-1 - k) (by omega) (by omega)
    have hk' : k + (-1 - k) = -1 := by ring
    rw [hk'] at e
    have er : row + -1 * dr = row + -dr := by ring
    have ec : col + -1 * dc = col + -dc := by ring
    rw [er, ec] at e
    exact hiso (-dr) (-dc) (by omega) (by omega) (by omega) (by omega) (by omega) e.1 e.2

/-- C1: for an in-bounds cell `(lastRow, lastCol)`, `checkWin` is true
exactly when on one of the four axes there are 4 consecutive in-bounds
cells that include the cell and all hold the value of the cell; it is
false for an isolated piece, and false when the longest such run through
the cell has length exactly 3.  (This holds whatever value the cell holds,
a player's piece in particular.) -/
theorem checkWin_iff_four_in_line (b : Board) (lastRow lastCol : Int)
    (hin : inBounds lastRow lastCol) :
    (checkWin b lastRow lastCol = true ↔
      ∃ d ∈ axes, RunThrough b lastRow lastCol d.1 d.2 (b.get lastRow lastCol) 4) ∧
    (Isolated b lastRow lastCol → checkWin b lastRow lastCol = false) ∧
    (LongestRun b lastRow lastCol 3 → checkWin b lastRow lastCol = false) := by
  have hiff := checkWin_eq_true_iff b lastRow lastCol hin
  refine ⟨hiff, ?_, ?_⟩
  · intro hiso
    rw [← Bool.not_eq_true, hiff]
    rintro ⟨d, hd, hrun⟩
    exact not_runThrough_four_of_isolated b lastRow lastCol d.1 d.2 hd hiso hrun
  · intro hlong
    rw [← Bool.not_eq_true, hiff]
    rintro ⟨d, hd, hrun⟩
    have := hlong.2 d hd 4 hrun
    omega

/-- C1 at the bottom row of `rowOfFour`, last move at column 3. -/
theorem checkWin_iff_four_in_line_witness :
    inBounds 5 3 ∧
    ((checkWin rowOfFour 5 3 = true ↔
      ∃ d ∈ axes, RunThrough rowOfFour 5 3 d.1 d.2 (rowOfFour.get 5 3) 4) ∧
    (Isolated rowOfFour 5 3 → checkWin rowOfFour 5 3 = false) ∧
    (LongestRun rowOfFour 5 3 3 → checkWin rowOfFour 5 3 = false)) :=
  ⟨by decide, checkWin_iff_four_in_line rowOfFour 5 3 (by decide)⟩

/-! ### Reads and writes -/

theorem Board.get_coe (b : Board) (i : Fin ROWS) (j : Fin COLS) :
    b.get (i.val : Int) (j.val : Int) = b i j := by
  have h : inBounds (i.val : Int) (j.val : Int) := by
    unfold inBounds; have := i.isLt; have := j.isLt; omega
  unfold Board.get
  rw [dif_pos h]
  congr

theorem Board.get_of_inBounds (b : Board) (r c : Int) (h : inBounds r c) :
    ∃ (i : Fin ROWS) (j : Fin COLS), (i.val : Int) = r ∧ (j.val : Int) = c ∧ b.get r c = b i j := by
  unfold inBounds at h
  refine ⟨⟨r.toNat, by omega⟩, ⟨c.toNat, by omega⟩, by simp; omega, by simp; omega, ?_⟩
  unfold Board.get
  rw [dif_pos (by unfold inBounds; omega)]

theorem Board.get_set_same (b : Board) (r c v : Int) (h : inBounds r c) :
    (b.set r c v).get r c = v := by
  obtain ⟨i, j, hi, hj, hget⟩ := Board.get_of_inBounds (b.set r c v) r c h
  rw [hget]
  simp [Board.set, hi, hj]

theorem Board.get_set_other (b : Board) (r c v r' c' : Int) (h : r' ≠ r ∨ c' ≠ c) :
    (b.set r c v).get r' c' = b.get r' c' := by
  unfold Board.get
  by_cases hb : inBounds r' c'
  · rw [dif_pos hb, dif_pos hb]
    unfold inBounds at hb
    unfold Board.set
    rw [if_neg]
    simp only [Int.toNat_of_nonneg hb.1, Int.toNat_of_nonneg hb.2.2.1]
    rintro ⟨h1, h2⟩
    rcases h with h | h
    · exact h h1
    · exact h h2
  · rw [dif_neg hb, dif_neg hb]

/-! ### The landing-row scan -/

theorem scanColumn_spec (b : Board) (col : Int) (n : Nat) :
    (scanColumn b col n = -1 ∧ ∀ r : Int, 0 ≤ r → r < n → b.get r col ≠ 0) ∨
    (0 ≤ scanColumn b col n ∧ scanColumn b col n < n ∧ b.get (scanColumn b col n) col = 0 ∧
      ∀ r : Int, scanColumn b col n < r → r < n → b.get r col ≠ 0) := by
  induction n with
  | zero =>
    left
    refine ⟨rfl, fun r h0 h1 => ?_⟩
    simp at h1; omega
  | succ n ih =>
    unfold scanColumn
    by_cases h : b.get (n : Int) col = 0
    · rw [if_pos h]
      right
      refine ⟨by omega, by push_cast; omega, h, fun r h1 h2 => ?_⟩
      push_cast at h2; omega
    · rw [if_neg h]
      rcases ih with ⟨h1, h2⟩ | ⟨h1, h2, h3, h4⟩
      · left
        refine ⟨h1, fun r hr0 hr1 => ?_⟩
        push_cast at hr1
        by_cases hrn : r = n
        · rw [hrn]; exact h
        · exact h2 r hr0 (by omega)
      · right
        refine ⟨h1, by push_cast; omega, h3, fun r hr0 hr1 => ?_⟩
        push_cast at hr1
        by_cases hrn : r = n
        · rw [hrn]; exact h
        · exact h4 r hr0 (by omega)

theorem dropPieceLoop_eq (b : Board) (col player : Int) (n : Nat) :
    dropPieceLoop b col player n =
      if scanColumn b col n = -1 then (-1, b)
      else (scanColumn b col n, b.set (scanColumn b col n) col player) := by
  induction n with
  | zero => simp [dropPieceLoop, scanColumn]
  | succ n ih =>
    unfold dropPieceLoop scanColumn
    by_cases h : b.get (n : Int) col = 0
    · rw [if_pos h, if_pos h, if_neg (by omega)]
    · rw [if_neg h, if_neg h, ih]

/-- C2: for an in-range column with an Empty cell, the landing-row scan of
the click handler yields the bottom-most Empty row `r` of the column (the
cell is Empty, every row below it is occupied), and `dropPiece` returns the
same `r`, writes `player` at `(r, col)` and leaves every other cell as it
was. -/
theorem dropPiece_lands_bottom_most (b : Board) (col player : Int)
    (hcol : 0 ≤ col ∧ col < COLS)
    (hroom : ∃ r : Int, 0 ≤ r ∧ r < ROWS ∧ b.get r col = 0) :
    0 ≤ targetRow b col ∧ targetRow b col < ROWS ∧
    b.get (targetRow b col) col = 0 ∧
    (∀ r : Int, targetRow b col < r → r < ROWS → b.get r col ≠ 0) ∧
    (dropPiece b col player).1 = targetRow b col ∧
    (dropPiece b col player).2.get (targetRow b col) col = player ∧
    ∀ (i : Fin ROWS) (j : Fin COLS),
      ¬ ((i.val : Int) = targetRow b col ∧ (j.val : Int) = col) →
        (dropPiece b col player).2 i j = b i j := by
  obtain ⟨r0, hr0, hr1, hr2⟩ := hroom
  have hdrop : dropPiece b col player = dropPieceLoop b col player ROWS := by
    unfold dropPiece
    rw [if_neg (by omega)]
  unfold targetRow
  rcases scanColumn_spec b col ROWS with ⟨_, hfull⟩ | ⟨h1, h2, h3, h4⟩
  · exact absurd hr2 (hfull r0 hr0 hr1)
  · have hne : scanColumn b col ROWS ≠ -1 := by omega
    rw [hdrop, dropPieceLoop_eq, if_neg hne]
    refine ⟨h1, h2, h3, h4, rfl, ?_, ?_⟩
    · exact Board.get_set_same b _ _ _ ⟨h1, h2, hcol.1, hcol.2⟩
    · intro i j hij
      simp only [Board.set]
      rw [if_neg hij]

/-- C2 on `onePiece`: Yellow dropped into column 0 lands on row 4. -/
theorem dropPiece_lands_bottom_most_witness :
    (dropPiece onePiece 0 2).1 = 4 ∧
    (0 ≤ targetRow onePiece 0 ∧ targetRow onePiece 0 < ROWS ∧
    onePiece.get (targetRow onePiece 0) 0 = 0 ∧
    (∀ r : Int, targetRow onePiece 0 < r → r < ROWS → onePiece.get r 0 ≠ 0) ∧
    (dropPiece onePiece 0 2).1 = targetRow onePiece 0 ∧
    (dropPiece onePiece 0 2).2.get (targetRow onePiece 0) 0 = 2 ∧
    ∀ (i : Fin ROWS) (j : Fin COLS),
      ¬ ((i.val : Int) = targetRow onePiece 0 ∧ (j.val : Int) = 0) →
        (dropPiece onePiece 0 2).2 i j = onePiece i j) :=
  ⟨by decide, dropPiece_lands_bottom_most onePiece 0 2 (by decide) ⟨4, by decide⟩⟩

theorem scanColumn_eq_neg_one_iff (b : Board) (col : Int) :
    scanColumn b col ROWS = -1 ↔ ColumnFull b col := by
  unfold ColumnFull
  rcases scanColumn_spec b col ROWS with ⟨h1, h2⟩ | ⟨h1, h2, h3, h4⟩
  · exact ⟨fun _ => h2, fun _ => h1⟩
  · constructor
    · intro h; omega
    · intro h; exact absurd h3 (h _ h1 h2)

/-- C3: `dropPiece` returns -1 exactly when the column is out of range or
has no Empty cell, and then the board is as before; a click on a column
with no Empty cell finds no landing row (the scan yields -1) and leaves the
whole state, pending move, board, `currentPlayer` and `gameOver` included,
as it was. -/
theorem dropPiece_full_column (g : Game) (col player : Int) :
    ((dropPiece g.board col player).1 = -1 ↔
      (col < 0 ∨ col ≥ COLS ∨ ColumnFull g.board col)) ∧
    ((dropPiece g.board col player).1 = -1 → (dropPiece g.board col player).2 = g.board) ∧
    (ColumnFull g.board col → targetRow g.board col = -1 ∧ handleClick g col = g) := by
  have hscan := scanColumn_eq_neg_one_iff g.board col
  refine ⟨?_, ?_, ?_⟩
  · unfold dropPiece
    by_cases hr : col < 0 ∨ col ≥ COLS
    · rw [if_pos hr]
      simp only [true_iff]
      rcases hr with hr | hr
      · exact Or.inl hr
      · exact Or.inr (Or.inl hr)
    · rw [if_neg hr, dropPieceLoop_eq]
      by_cases hs : scanColumn g.board col ROWS = -1
      · rw [if_pos hs]
        simp only [true_iff]
        exact Or.inr (Or.inr (hscan.1 hs))
      · rw [if_neg hs]
        constructor
        · intro h; exact absurd h hs
        · rintro (h | h | h)
          · exact absurd (Or.inl h) hr
          · exact absurd (Or.inr h) hr
          · exact absurd (hscan.2 h) hs
  · unfold dropPiece
    by_cases hr : col < 0 ∨ col ≥ COLS
    · rw [if_pos hr]; intro _; rfl
    · rw [if_neg hr, dropPieceLoop_eq]
      by_cases hs : scanColumn g.board col ROWS = -1
      · rw [if_pos hs]; intro _; rfl
      · rw [if_neg hs]; intro h; exact absurd h hs
  · intro hfull
    have ht : targetRow g.board col = -1 := hscan.2 hfull
    refine ⟨ht, ?_⟩
    unfold handleClick
    simp only [ht, ne_eq, not_true_eq_false, if_false, ite_self]

theorem columnFull_fullColumn : ColumnFull fullColumn 0 := by
  intro r h0 h1
  have h6 : r < 6 := h1
  have hr : r = 0 ∨ r = 1 ∨ r = 2 ∨ r = 3 ∨ r = 4 ∨ r = 5 := by omega
  rcases hr with rfl | rfl | rfl | rfl | rfl | rfl <;> decide

/-- C3 on `fullColumnGame`: column 0 is full, `dropPiece` returns -1 and a
click on column 0 changes nothing. -/
theorem dropPiece_full_column_witness :
    (dropPiece fullColumnGame.board 0 1).1 = -1 ∧
    (dropPiece fullColumnGame.board 0 1).2 = fullColumnGame.board ∧
    targetRow fullColumnGame.board 0 = -1 ∧
    handleClick fullColumnGame 0 = fullColumnGame :=
  have h := dropPiece_full_column fullColumnGame 0 1
  have hfull : ColumnFull fullColumnGame.board 0 := columnFull_fullColumn
  ⟨h.1.2 (Or.inr (Or.inr hfull)), h.2.1 (h.1.2 (Or.inr (Or.inr hfull))),
    (h.2.2 hfull).1, (h.2.2 hfull).2⟩

/-- C4: in the commit step, whenever `checkWin` is true for the committed
cell (whatever `checkDraw` says) the game is over with the moving player's
win message as status and the popup activated by `initPopup(player, false)`
(active, that player, alpha 0, the win message); the draw status is set
exactly when `checkWin` is false and `checkDraw` is true. -/
theorem commitMove_win_before_draw (g : Game) :
    (checkWin (g.board.set g.g_animation.targetRow g.g_animation.column g.g_animation.player)
        g.g_animation.targetRow g.g_animation.column = true →
      (commitMove g).gameOver = true ∧
      (commitMove g).statusText =
        (if g.g_animation.player = 1 then "Player 1 (Red) WINS!" else "Player 2 (Yellow) WINS!") ∧
      (commitMove g).g_popup = initPopup g.g_popup g.g_animation.player false ∧
      (commitMove g).g_popup.isActive = true ∧
      (commitMove g).g_popup.winningPlayer = g.g_animation.player ∧
      (commitMove g).g_popup.alpha = 0 ∧
      (commitMove g).g_popup.message =
        (if g.g_animation.player = 1 then "Player 1 (Red) WINS!" else "Player 2 (Yellow) WINS!")) ∧
    ((commitMove g).statusText = "Game Over - It's a DRAW!" ↔
      (checkWin (g.board.set g.g_animation.targetRow g.g_animation.column g.g_animation.player)
          g.g_animation.targetRow g.g_animation.column = false ∧
        checkDraw (g.board.set g.g_animation.targetRow g.g_animation.column g.g_animation.player)
          = true)) := by
  constructor
  · intro hwin
    simp [commitMove, hwin, initPopup]
  · unfold commitMove
    simp only []
    cases hw : checkWin (g.board.set g.g_animation.targetRow g.g_animation.column
        g.g_animation.player) g.g_animation.targetRow g.g_animation.column
    · cases hd : checkDraw (g.board.set g.g_animation.targetRow g.g_animation.column
          g.g_animation.player)
      · simp only [Bool.false_eq_true, if_false, and_false, iff_false]
        split_ifs <;> decide
      · simp
    · simp only [if_true, Bool.true_eq_false, false_and, iff_false]
      split_ifs <;> decide

/-- C4 on `lastCellGame`: Yellow's piece at `(0, 3)` both completes the top
row of four and fills the board; the commit reports the win. -/
theorem commitMove_win_before_draw_witness :
    checkDraw (lastCellGame.board.set 0 3 2) = true ∧
    (commitMove lastCellGame).gameOver = true ∧
    (commitMove lastCellGame).statusText = "Player 2 (Yellow) WINS!" ∧
    (commitMove lastCellGame).g_popup =
      { isActive := true, winningPlayer := 2, alpha := 0, message := "Player 2 (Yellow) WINS!" } :=
  have h := (commitMove_win_before_draw lastCellGame).1 (by decide)
  ⟨by decide, h.1, h.2.1, h.2.2.1⟩

/-! ### `checkDraw` -/

theorem checkDrawLoop_iff (b : Board) (n : Nat) :
    ∀ c : Int, checkDrawLoop b n c = true ↔
      ∀ j : Int, c ≤ j → j < c + n → b.get 0 j ≠ 0 := by
  induction n with
  | zero =>
    intro c
    simp only [checkDrawLoop, true_iff]
    intro j h1 h2
    simp at h2; omega
  | succ n ih =>
    intro c
    unfold checkDrawLoop
    by_cases h : b.get 0 c = 0
    · rw [if_pos h]
      simp only [Bool.false_eq_true, false_iff]
      intro hall
      exact hall c (le_refl c) (by push_cast; omega) h
    · rw [if_neg h, ih]
      constructor
      · intro hall j h1 h2
        push_cast at h2
        by_cases hj : j = c
        · rw [hj]; exact h
        · exact hall j (by omega) (by omega)
      · intro hall j h1 h2
        exact hall j (by omega) (by push_cast; omega)

theorem checkDraw_iff_top (b : Board) :
    checkDraw b = true ↔ ∀ c : Fin COLS, b 0 c ≠ 0 := by
  unfold checkDraw
  rw [checkDrawLoop_iff]
  constructor
  · intro h c
    have hc := c.isLt
    have := h (c.val : Int) (by omega) (by omega)
    rwa [show (0 : Int) = ((0 : Fin ROWS).val : Int) from rfl, Board.get_coe] at this
  · intro h j h1 h2
    have hj : j < 7 := by simpa using h2
    have := h ⟨j.toNat, by omega⟩
    rw [← Board.get_coe b 0 ⟨j.toNat, by omega⟩] at this
    simpa [Int.toNat_of_nonneg h1] using this

/-- C5: on a board satisfying the gravity invariant, `checkDraw` is true
exactly when every column's top cell (row 0) is occupied, which is the case
exactly when no cell of the board is Empty; it is false whenever some
column still has an Empty cell. -/
theorem checkDraw_iff_board_full (b : Board) (hg : Gravity b) :
    (checkDraw b = true ↔ ∀ c : Fin COLS, b 0 c ≠ 0) ∧
    ((∀ c : Fin COLS, b 0 c ≠ 0) ↔ ∀ (r : Fin ROWS) (c : Fin COLS), b r c ≠ 0) ∧
    ((∃ (r : Fin ROWS) (c : Fin COLS), b r c = 0) → checkDraw b = false) := by
  have htop : (∀ c : Fin COLS, b 0 c ≠ 0) ↔ ∀ (r : Fin ROWS) (c : Fin COLS), b r c ≠ 0 := by
    constructor
    · intro h r c
      by_cases hr : r = 0
      · rw [hr]; exact h c
      · exact hg c 0 r (Fin.pos_of_ne_zero hr) (h c)
    · intro h c
      exact h 0 c
  refine ⟨checkDraw_iff_top b, htop, ?_⟩
  rintro ⟨r, c, hrc⟩
  rw [← Bool.not_eq_true, checkDraw_iff_top, htop]
  intro h
  exact h r c hrc

theorem gravity_fullBoard : Gravity fullBoard := by
  intro c r r' _ _
  unfold fullBoard
  split_ifs <;> decide

/-- C5 on `fullBoard`: the board is full and `checkDraw` is true. -/
theorem checkDraw_iff_board_full_witness :
    checkDraw fullBoard = true ∧ ∀ (r : Fin ROWS) (c : Fin COLS), fullBoard r c ≠ 0 :=
  have h := checkDraw_iff_board_full fullBoard gravity_fullBoard
  ⟨by decide, h.2.1.1 (h.1.1 (by decide))⟩

/-! ### Clearing the board -/

theorem clearRowLoop_apply (r : Int) (n : Nat) :
    ∀ (b : Board) (c : Int) (i : Fin ROWS) (j : Fin COLS),
      clearRowLoop b r n c i j =
        if (i.val : Int) = r ∧ c ≤ (j.val : Int) ∧ (j.val : Int) < c + n then 0 else b i j := by
  induction n with
  | zero =>
    intro b c i j
    simp only [clearRowLoop]
    rw [if_neg]
    rintro ⟨_, h1, h2⟩
    simp at h2; omega
  | succ n ih =>
    intro b c i j
    simp only [clearRowLoop]
    rw [ih]
    simp only [Board.set]
    push_cast
    split_ifs with h1 h2 h3 h4 h5 <;> first | rfl | (exfalso; omega)

theorem clearBoardLoop_apply (n : Nat) :
    ∀ (b : Board) (r : Int) (i : Fin ROWS) (j : Fin COLS),
      clearBoardLoop b n r i j =
        if r ≤ (i.val : Int) ∧ (i.val : Int) < r + n then 0 else b i j := by
  induction n with
  | zero =>
    intro b r i j
    simp only [clearBoardLoop]
    rw [if_neg]
    rintro ⟨h1, h2⟩
    simp at h2; omega
  | succ n ih =>
    intro b r i j
    simp only [clearBoardLoop]
    rw [ih, clearRowLoop_apply]
    have hj : (j.val : Int) < 7 := by have h7 : j.val < 7 := j.isLt; omega
    have hj0 : (0 : Int) ≤ (j.val : Int) := by omega
    push_cast
    split_ifs with h1 h2 h3 h4 h5 <;> first | rfl | (exfalso; omega)

theorem clearBoard_apply (b : Board) (i : Fin ROWS) (j : Fin COLS) : clearBoard b i j = 0 := by
  unfold clearBoard
  rw [clearBoardLoop_apply, if_pos]
  have : (i.val : Int) < 6 := by have h6 : i.val < 6 := i.isLt; omega
  push_cast
  omega

theorem clearBoard_eq (b : Board) : clearBoard b = emptyBoard := by
  funext i j
  exact clearBoard_apply b i j

/-! ### The gravity invariant -/

theorem gravity_emptyBoard : Gravity emptyBoard := by
  intro c r r' _ h
  exact absurd rfl h

theorem gravity_set_targetRow (b : Board) (col player : Int) (hg : Gravity b)
    (hp : player ≠ 0) (hne : targetRow b col ≠ -1) :
    Gravity (b.set (targetRow b col) col player) := by
  unfold targetRow at *
  rcases scanColumn_spec b col ROWS with ⟨h1, _⟩ | ⟨h1, h2, h3, h4⟩
  · exact absurd h1 hne
  · intro c r r' hrr hocc
    simp only [Board.set] at hocc ⊢
    by_cases hw' : (r'.val : Int) = scanColumn b col ROWS ∧ (c.val : Int) = col
    · rw [if_pos hw']; exact hp
    · rw [if_neg hw']
      by_cases hw : (r.val : Int) = scanColumn b col ROWS ∧ (c.val : Int) = col
      · have hlt : scanColumn b col ROWS < (r'.val : Int) := by
          have : r.val < r'.val := hrr
          omega
        have hr6 : r'.val < ROWS := r'.isLt
        have := h4 (r'.val : Int) hlt (by omega)
        rw [← hw.2, Board.get_coe] at this
        exact this
      · rw [if_neg hw] at hocc
        exact hg c r r' hrr hocc

theorem gravity_dropPiece (b : Board) (col player : Int) (hg : Gravity b)
    (hp : player ≠ 0) : Gravity (dropPiece b col player).2 := by
  unfold dropPiece
  by_cases hr : col < 0 ∨ col ≥ COLS
  · rw [if_pos hr]; exact hg
  · rw [if_neg hr, dropPieceLoop_eq]
    by_cases hs : scanColumn b col ROWS = -1
    · rw [if_pos hs]; exact hg
    · rw [if_neg hs]
      exact gravity_set_targetRow b col player hg hp hs

theorem gameInv_initialGame : GameInv initialGame := by
  refine ⟨gravity_emptyBoard, Or.inl rfl, ?_⟩
  intro h
  exact absurd h (by decide)

theorem gameInv_resetGame (g : Game) : GameInv (resetGame g) := by
  refine ⟨?_, Or.inl rfl, ?_⟩
  · show Gravity (clearBoard g.board)
    rw [clearBoard_eq]
    exact gravity_emptyBoard
  · intro h
    exact absurd h (by simp [resetGame, resetAnimation])

theorem gameInv_handleClick (g : Game) (c : Int) (hc : 0 ≤ c ∧ c < COLS) (hinv : GameInv g) :
    GameInv (handleClick g c) := by
  unfold handleClick
  simp only []
  split_ifs with h1 h2
  · obtain ⟨hg, hcp, _⟩ := hinv
    refine ⟨hg, hcp, ?_⟩
    intro _
    refine ⟨hc.1, hc.2, rfl, h2, ?_⟩
    show g.currentPlayer ≠ 0
    rcases hcp with h | h <;> rw [h] <;> decide
  · exact hinv
  · exact hinv

theorem commitMove_board (g : Game) :
    (commitMove g).board =
      g.board.set g.g_animation.targetRow g.g_animation.column g.g_animation.player := by
  unfold commitMove
  simp only []
  split_ifs <;> rfl

theorem commitMove_g_animation (g : Game) : (commitMove g).g_animation = g.g_animation := by
  unfold commitMove
  simp only []
  split_ifs <;> rfl

theorem commitMove_currentPlayer (g : Game) :
    (commitMove g).currentPlayer = g.currentPlayer ∨
      (commitMove g).currentPlayer = (if g.currentPlayer = 1 then 2 else 1) := by
  unfold commitMove
  simp only []
  split_ifs <;> simp

theorem gameInv_frameUpdate (g : Game) (deltaTime : ℚ) (finished : Bool) (hinv : GameInv g) :
    GameInv (frameUpdate g deltaTime finished) := by
  obtain ⟨hg, hcp, hpend⟩ := hinv
  unfold frameUpdate
  simp only [isAnimationActive, updateAnimation]
  cases hact : g.g_animation.isActive
  · exact ⟨hg, hcp, fun h => absurd (hact.symm.trans h) (by decide)⟩
  · obtain ⟨hc0, hc1, hrow, hne, hpl⟩ := hpend hact
    cases finished
    · simp only [Bool.not_false, Bool.and_self, Bool.not_true, Bool.false_eq_true, if_false,
        if_true]
      exact ⟨hg, hcp, fun _ => ⟨hc0, hc1, hrow, hne, hpl⟩⟩
    · simp only [Bool.not_true, Bool.and_false, Bool.not_false, if_true]
      refine ⟨?_, ?_, ?_⟩
      · show Gravity (commitMove _).board
        rw [commitMove_board]
        show Gravity (g.board.set g.g_animation.targetRow g.g_animation.column
          g.g_animation.player)
        rw [hrow]
        exact gravity_set_targetRow g.board _ _ hg hpl hne
      · show (commitMove _).currentPlayer = 1 ∨ (commitMove _).currentPlayer = 2
        rcases commitMove_currentPlayer
          { g with g_animation := { g.g_animation with isActive := false } } with h | h
        · rw [h]; exact hcp
        · rw [h]
          show (if g.currentPlayer = 1 then (2 : Int) else 1) = 1 ∨
            (if g.currentPlayer = 1 then (2 : Int) else 1) = 2
          split_ifs <;> simp
      · intro h
        have h' : (commitMove
            { g with g_animation := { g.g_animation with isActive := false } }).g_animation.isActive
            = true := h
        rw [commitMove_g_animation] at h'
        exact Bool.noConfusion h'

theorem run_cons (g : Game) (e : Event) (es : List Event) :
    run g (e :: es) = run (step g e) es := rfl

theorem gameInv_run (es : List Event) :
    ∀ g : Game, GameInv g → ClicksInRange es → GameInv (run g es) := by
  induction es with
  | nil => intro g hinv _; exact hinv
  | cons e es ih =>
    intro g hinv hclicks
    rw [run_cons]
    apply ih
    · cases e with
      | click c => exact gameInv_handleClick g c (hclicks c (List.mem_cons_self _ _)) hinv
      | keyR => exact gameInv_resetGame g
      | tick dt fin => exact gameInv_frameUpdate g dt fin hinv
    · intro c hc
      exact hclicks c (List.mem_cons_of_mem _ hc)

theorem gravity_iff_contiguous (b : Board) : Gravity b ↔ ContiguousFromBottom b := by
  classical
  constructor
  · intro hg c
    by_cases hex : ∃ n : Nat, ∃ hn : n < ROWS, b ⟨n, hn⟩ c ≠ 0
    · obtain ⟨hm, hocc⟩ := Nat.find_spec hex
      refine ⟨ROWS - Nat.find hex, Nat.sub_le _ _, fun r => ?_⟩
      have hsub : ROWS - (ROWS - Nat.find hex) = Nat.find hex := by omega
      rw [hsub]
      constructor
      · intro hr
        exact Nat.find_min' hex ⟨r.isLt, hr⟩
      · intro hle
        by_cases heq : Nat.find hex = r.val
        · have hfin : (⟨Nat.find hex, hm⟩ : Fin ROWS) = r := Fin.ext heq
          rw [← hfin]; exact hocc
        · exact hg c ⟨Nat.find hex, hm⟩ r (by
            show Nat.find hex < r.val
            omega) hocc
    · refine ⟨0, Nat.zero_le _, fun r => ?_⟩
      constructor
      · intro hr
        exact absurd ⟨r.val, r.isLt, hr⟩ hex
      · intro hle
        have h6 : r.val < 6 := r.isLt
        simp at hle
        omega
  · intro hc c r r' hrr hocc
    obtain ⟨h, _, hh⟩ := hc c
    have h1 := (hh r).1 hocc
    have hlt : r.val < r'.val := hrr
    exact (hh r').2 (by omega)

theorem clicksInRange_oneMove : ClicksInRange oneMove := by
  intro c hc
  simp only [oneMove, List.mem_cons, Event.click.injEq, List.mem_singleton, List.not_mem_nil,
    or_false, reduceCtorEq] at hc
  subst hc
  decide

/-- C6: the gravity invariant (no Empty cell below an occupied one, which
is to say the occupied cells of each column form one contiguous run from
the bottom row) holds on the empty board; on a board satisfying it, both
`dropPiece` and the commit write of a non-Empty player value at the row the
click-time scan finds in an in-range column give a board satisfying it;
and it holds in every state reached from the initial state by clicks on
in-range columns, ticks and resets. -/
theorem gravity_preserved :
    (∀ b : Board, Gravity b ↔ ContiguousFromBottom b) ∧
    Gravity emptyBoard ∧
    (∀ (b : Board) (col player : Int), Gravity b → 0 ≤ col ∧ col < COLS → player ≠ 0 →
      Gravity (dropPiece b col player).2 ∧
      (targetRow b col ≠ -1 → Gravity (b.set (targetRow b col) col player))) ∧
    (∀ es : List Event, ClicksInRange es → Gravity (run initialGame es).board) := by
  refine ⟨gravity_iff_contiguous, gravity_emptyBoard, ?_, ?_⟩
  · intro b col player hg _ hp
    exact ⟨gravity_dropPiece b col player hg hp, gravity_set_targetRow b col player hg hp⟩
  · intro es hes
    exact (gameInv_run es initialGame gameInv_initialGame hes).1

/-- C6 on the empty board: after a drop into column 3, and after a click
on column 3 followed by the end of the fall, the invariant holds. -/
theorem gravity_preserved_witness :
    Gravity (dropPiece emptyBoard 3 1).2 ∧ (run initialGame oneMove).board 5 3 = 1 ∧
    Gravity (run initialGame oneMove).board :=
  ⟨(gravity_preserved.2.2.1 emptyBoard 3 1 gravity_preserved.2.1 (by decide) (by decide)).1,
    by decide, gravity_preserved.2.2.2 oneMove clicksInRange_oneMove⟩

/-! ### Turn alternation -/

theorem commitMove_nonTerminal (g : Game) (h : CommitNonTerminal g) :
    commitMove g =
      { g with
        board := g.board.set g.g_animation.targetRow g.g_animation.column g.g_animation.player
        currentPlayer := if g.currentPlayer = 1 then 2 else 1
        statusText :=
          if (if g.currentPlayer = 1 then (2 : Int) else 1) = 1 then "Player 1 (Red)'s Turn"
          else "Player 2 (Yellow)'s Turn" } := by
  unfold commitMove
  simp only [h.1, h.2, Bool.false_eq_true, if_false]

theorem step_currentPlayer (g : Game) (e : Event) (hne : e ≠ Event.keyR)
    (hnt : isCommit g e = true → CommitNonTerminal g) :
    (step g e).currentPlayer =
      if isCommit g e then (if g.currentPlayer = 1 then 2 else 1) else g.currentPlayer := by
  cases e with
  | keyR => exact absurd rfl hne
  | click c =>
    simp only [step, isCommit, Bool.false_eq_true, if_false, handleClick]
    split_ifs <;> rfl
  | tick dt fin =>
    simp only [step, isCommit, isAnimationActive, updateAnimation] at hnt ⊢
    unfold frameUpdate
    simp only [isAnimationActive, updateAnimation]
    by_cases hact : g.g_animation.isActive = true
    · cases fin
      · simp [hact]
      · simp only [hact, Bool.not_true, Bool.and_false, Bool.not_false, Bool.and_self,
          if_true] at hnt ⊢
        have h' : CommitNonTerminal
            { g with g_animation := { g.g_animation with isActive := false } } := hnt trivial
        rw [commitMove_nonTerminal _ h']
    · simp [hact]

theorem alternation_run (es : List Event) :
    ∀ g : Game, (g.currentPlayer = 1 ∨ g.currentPlayer = 2) → NonTerminalMoves g es →
      ((run g es).currentPlayer = 1 ∨ (run g es).currentPlayer = 2) ∧
      ((run g es).currentPlayer = g.currentPlayer ↔ Even (commitCount g es)) := by
  induction es with
  | nil =>
    intro g hcp _
    exact ⟨hcp, by simp [run, commitCount]⟩
  | cons e es ih =>
    intro g hcp hnt
    obtain ⟨hne, hstep, hrest⟩ := hnt
    have hs := step_currentPlayer g e hne hstep
    rw [run_cons]
    simp only [commitCount]
    cases hc : isCommit g e
    · rw [hc] at hs
      simp only [Bool.false_eq_true, if_false] at hs
      obtain ⟨h1, h2⟩ := ih (step g e) (by rw [hs]; exact hcp) hrest
      refine ⟨h1, ?_⟩
      rw [hs] at h2
      simpa using h2
    · rw [hc] at hs
      simp only [if_true] at hs
      have hcp' : (step g e).currentPlayer = 1 ∨ (step g e).currentPlayer = 2 := by
        rw [hs]; split_ifs <;> simp
      obtain ⟨h1, h2⟩ := ih (step g e) hcp' hrest
      refine ⟨h1, ?_⟩
      simp only [if_true]
      rw [Nat.even_add, ← h2, hs]
      simp only [Nat.not_even_one, false_iff]
      rcases hcp with h | h <;> rcases h1 with h' | h' <;> rw [h, h'] <;> simp

theorem nonTerminalMoves_twoMoves : NonTerminalMoves initialGame twoMoves := by
  refine ⟨fun h => Event.noConfusion h, fun h => absurd h (by decide),
    fun h => Event.noConfusion h, fun _ => ⟨by decide, by decide⟩,
    fun h => Event.noConfusion h, fun h => absurd h (by decide),
    fun h => Event.noConfusion h, fun _ => ⟨by decide, by decide⟩, trivial⟩

/-- C7: from any state with `currentPlayer` 1 or 2, while events are handled
without a reset and every move committed on the way is non-terminal
(`checkWin` and `checkDraw` both false), `currentPlayer` equals the
starting player exactly when the number `N` of committed moves is even. -/
theorem turn_alternation (g : Game) (es : List Event)
    (hcp : g.currentPlayer = 1 ∨ g.currentPlayer = 2) (hnt : NonTerminalMoves g es) :
    (run g es).currentPlayer = g.currentPlayer ↔ Even (commitCount g es) :=
  (alternation_run es g hcp hnt).2

/-- C7 on two moves from the initial state: two commits, Red to move again. -/
theorem turn_alternation_witness :
    commitCount initialGame twoMoves = 2 ∧
    ((run initialGame twoMoves).currentPlayer = initialGame.currentPlayer ↔
      Even (commitCount initialGame twoMoves)) :=
  ⟨by decide, turn_alternation initialGame twoMoves (Or.inl rfl) nonTerminalMoves_twoMoves⟩

/-! ### The input gate and terminal states -/

theorem handleClick_gate (g : Game) (c : Int)
    (h : g.gameOver = true ∨ isAnimationActive g.g_animation = true) : handleClick g c = g := by
  unfold handleClick
  rcases h with h | h <;> simp [h]

theorem noPending_step (g : Game) (e : Event)
    (h : g.gameOver = true → isAnimationActive g.g_animation = false) :
    (step g e).gameOver = true → isAnimationActive (step g e).g_animation = false := by
  cases e with
  | keyR => intro hgo; exact absurd hgo (by simp [step, resetGame])
  | click c =>
    simp only [step, handleClick]
    split_ifs with h1 h2
    · intro hgo
      simp only [Bool.and_eq_true, Bool.not_eq_true'] at h1
      exact absurd (h1.1.symm.trans hgo) (by decide)
    · exact h
    · exact h
  | tick dt fin =>
    simp only [step, frameUpdate, isAnimationActive, updateAnimation] at h ⊢
    by_cases hact : g.g_animation.isActive = true
    · cases fin
      · simp only [hact, Bool.not_false, Bool.and_self, Bool.not_true, Bool.false_eq_true,
          if_false, if_true]
        intro hgo
        have := h hgo
        rw [hact] at this
        exact absurd this (by decide)
      · simp only [hact, Bool.not_true, Bool.and_false, Bool.not_false, if_true]
        intro _
        rw [commitMove_g_animation]
    · simp only [hact, Bool.false_eq_true, if_false]
      intro _
      trivial

theorem noPending_run (es : List Event) :
    ∀ g : Game, (g.gameOver = true → isAnimationActive g.g_animation = false) →
      (run g es).gameOver = true → isAnimationActive (run g es).g_animation = false := by
  induction es with
  | nil => intro g h; exact h
  | cons e es ih =>
    intro g h
    rw [run_cons]
    exact ih (step g e) (noPending_step g e h)

theorem frozen_step (g : Game) (e : Event) (hne : e ≠ Event.keyR)
    (hgo : g.gameOver = true) (hna : isAnimationActive g.g_animation = false) :
    (step g e).board = g.board ∧ (step g e).currentPlayer = g.currentPlayer ∧
      (step g e).gameOver = true ∧ isAnimationActive (step g e).g_animation = false := by
  cases e with
  | keyR => exact absurd rfl hne
  | click c =>
    simp only [step]
    rw [handleClick_gate g c (Or.inl hgo)]
    exact ⟨rfl, rfl, hgo, hna⟩
  | tick dt fin =>
    simp only [isAnimationActive] at hna
    simp only [step, frameUpdate, isAnimationActive, hna, Bool.false_eq_true, if_false]
    simp [hgo]

theorem frozen_run (es : List Event) :
    ∀ g : Game, Event.keyR ∉ es → g.gameOver = true → isAnimationActive g.g_animation = false →
      (run g es).board = g.board ∧ (run g es).currentPlayer = g.currentPlayer ∧
        (run g es).gameOver = true := by
  induction es with
  | nil => intro g _ hgo _; exact ⟨rfl, rfl, hgo⟩
  | cons e es ih =>
    intro g hno hgo hna
    rw [run_cons]
    obtain ⟨h1, h2, h3, h4⟩ :=
      frozen_step g e (fun h => hno (h ▸ List.mem_cons_self _ _)) hgo hna
    obtain ⟨k1, k2, k3⟩ := ih (step g e) (fun h => hno (List.mem_cons_of_mem _ h)) h3 h4
    exact ⟨k1.trans h1, k2.trans h2, k3⟩

/-- C8: in every state reached from the initial state by clicks, ticks and
resets, a click while `gameOver` is true or while a move is pending
changes nothing; whenever `gameOver` is true no move is pending; and from
such a state the board, `currentPlayer` and `gameOver` stay as they are
under every sequence of clicks and ticks without a reset. -/
theorem terminal_state_frozen (es : List Event) :
    (∀ c : Int, ((run initialGame es).gameOver = true ∨
        isAnimationActive (run initialGame es).g_animation = true) →
      handleClick (run initialGame es) c = run initialGame es) ∧
    ((run initialGame es).gameOver = true →
      isAnimationActive (run initialGame es).g_animation = false) ∧
    ((run initialGame es).gameOver = true → ∀ es' : List Event, Event.keyR ∉ es' →
      (run (run initialGame es) es').board = (run initialGame es).board ∧
      (run (run initialGame es) es').currentPlayer = (run initialGame es).currentPlayer ∧
      (run (run initialGame es) es').gameOver = true) := by
  have hnp := noPending_run es initialGame (fun h => absurd h (by decide))
  refine ⟨fun c h => handleClick_gate _ c h, hnp, ?_⟩
  intro hgo es' hno
  exact frozen_run es' _ hno hgo (hnp hgo)

/-- C8 after `redWins`: the game is over, and a further click and tick
leave the board as it is. -/
theorem terminal_state_frozen_witness :
    (run initialGame redWins).gameOver = true ∧
    (run (run initialGame redWins) oneMove).board = (run initialGame redWins).board ∧
    (run (run initialGame redWins) oneMove).currentPlayer
      = (run initialGame redWins).currentPlayer ∧
    (run (run initialGame redWins) oneMove).gameOver = true :=
  ⟨by decide, (terminal_state_frozen redWins).2.2 (by decide) oneMove (by
    intro h
    simp only [oneMove, List.mem_cons, List.mem_singleton, List.not_mem_nil, or_false,
      reduceCtorEq] at h)⟩

/-! ### `resetGame` -/

/-- C9: from every state, `resetGame` yields a board whose every cell is
Empty, `currentPlayer = 1`, `gameOver = false`, the status text
"Player 1 (Red)'s Turn", and an inactive popup with `winningPlayer = 0`,
`alpha = 0` and an empty message. -/
theorem resetGame_yields_initial (g : Game) :
    (∀ (r : Fin ROWS) (c : Fin COLS), (resetGame g).board r c = 0) ∧
    (resetGame g).currentPlayer = 1 ∧
    (resetGame g).gameOver = false ∧
    (resetGame g).statusText = "Player 1 (Red)'s Turn" ∧
    (resetGame g).g_popup.isActive = false ∧
    (resetGame g).g_popup.winningPlayer = 0 ∧
    (resetGame g).g_popup.alpha = 0 ∧
    (resetGame g).g_popup.message = "" :=
  ⟨fun r c => clearBoard_apply g.board r c, rfl, rfl, rfl, rfl, rfl, rfl, rfl⟩

/-! ### The popup fade -/

theorem updatePopup_inactive (p : PopupState) (dt : ℚ) (h : p.isActive = false) :
    updatePopup p dt = p := by
  unfold updatePopup
  simp [h]

theorem updatePopup_active (p : PopupState) (dt : ℚ) (h : p.isActive = true)
    (h255 : p.alpha ≤ 255) (hdt : 0 ≤ dt) :
    updatePopup p dt = { p with alpha := min 255 (p.alpha + 600 * dt) } := by
  unfold updatePopup
  rw [if_neg (by simp [h])]
  simp only [FADE_SPEED]
  by_cases hlt : p.alpha < 255
  · rw [if_pos hlt, min_comm]
  · rw [if_neg hlt]
    have heq : p.alpha = 255 := le_antisymm h255 (not_lt.mp hlt)
    have hmin : min (255 : ℚ) (p.alpha + 600 * dt) = p.alpha := by
      rw [heq]
      apply min_eq_left
      linarith
    rw [hmin]

theorem updatePopup_step (p : PopupState) (dt : ℚ) (h : p.isActive = true)
    (h0 : 0 ≤ p.alpha) (h255 : p.alpha ≤ 255) (hdt : 0 ≤ dt) :
    (updatePopup p dt).isActive = true ∧ 0 ≤ (updatePopup p dt).alpha ∧
      (updatePopup p dt).alpha ≤ 255 ∧ p.alpha ≤ (updatePopup p dt).alpha ∧
      (p.alpha = 255 → (updatePopup p dt).alpha = 255) := by
  rw [updatePopup_active p dt h h255 hdt]
  have hnn : 0 ≤ 600 * dt := by positivity
  refine ⟨h, ?_, min_le_left _ _, ?_, ?_⟩
  · exact le_min (by norm_num) (by linarith)
  · exact le_min h255 (by linarith)
  · intro heq
    exact min_eq_left (by
      show (255 : ℚ) ≤ p.alpha + 600 * dt
      linarith)

theorem fade_cons (p : PopupState) (dt : ℚ) (dts : List ℚ) :
    fade p (dt :: dts) = fade (updatePopup p dt) dts := rfl

theorem fade_bounds (dts : List ℚ) :
    ∀ p : PopupState, p.isActive = true → 0 ≤ p.alpha → p.alpha ≤ 255 →
      (∀ x ∈ dts, (0 : ℚ) ≤ x) →
      0 ≤ (fade p dts).alpha ∧ (fade p dts).alpha ≤ 255 ∧ p.alpha ≤ (fade p dts).alpha ∧
        (p.alpha = 255 → (fade p dts).alpha = 255) := by
  induction dts with
  | nil =>
    intro p _ h0 h255 _
    exact ⟨h0, h255, le_refl _, fun h => h⟩
  | cons dt dts ih =>
    intro p hact h0 h255 hall
    obtain ⟨s1, s2, s3, s4, s5⟩ :=
      updatePopup_step p dt hact h0 h255 (hall dt (List.mem_cons_self _ _))
    obtain ⟨k1, k2, k3, k4⟩ :=
      ih (updatePopup p dt) s1 s2 s3 (fun x hx => hall x (List.mem_cons_of_mem _ hx))
    rw [fade_cons]
    exact ⟨k1, k2, le_trans s4 k3, fun h => k4 (s5 h)⟩

theorem fade_isActive (dts : List ℚ) :
    ∀ p : PopupState, p.isActive = true → (fade p dts).isActive = true := by
  induction dts with
  | nil => intro p h; exact h
  | cons dt dts ih =>
    intro p h
    rw [fade_cons]
    apply ih
    unfold updatePopup
    rw [if_neg (by simp [h])]
    split_ifs <;> exact h

/-- C10: with `alpha` and `deltaTime` exact rationals, `updatePopup` leaves
an inactive popup as it is; on an active popup with `alpha` in [0, 255] and
`deltaTime ≥ 0` it sets `alpha` to `min(255, alpha + 600 * deltaTime)`; and
after `initPopup`, along every finite sequence of `updatePopup` calls with
non-negative `deltaTime`s, `alpha` lies in [0, 255], never decreases under
the calls that follow, and once 255 stays 255. -/
theorem updatePopup_monotone_bounded :
    (∀ (p : PopupState) (dt : ℚ), p.isActive = false → updatePopup p dt = p) ∧
    (∀ (p : PopupState) (dt : ℚ), p.isActive = true → 0 ≤ p.alpha → p.alpha ≤ 255 → 0 ≤ dt →
      updatePopup p dt = { p with alpha := min 255 (p.alpha + 600 * dt) }) ∧
    (∀ (p0 : PopupState) (winningPlayer : Int) (isDraw : Bool) (dts dts' : List ℚ),
      (∀ x ∈ dts, (0 : ℚ) ≤ x) → (∀ x ∈ dts', (0 : ℚ) ≤ x) →
      (initPopup p0 winningPlayer isDraw).alpha = 0 ∧
      0 ≤ (fade (initPopup p0 winningPlayer isDraw) dts).alpha ∧
      (fade (initPopup p0 winningPlayer isDraw) dts).alpha ≤ 255 ∧
      (fade (initPopup p0 winningPlayer isDraw) dts).alpha
        ≤ (fade (fade (initPopup p0 winningPlayer isDraw) dts) dts').alpha ∧
      ((fade (initPopup p0 winningPlayer isDraw) dts).alpha = 255 →
        (fade (fade (initPopup p0 winningPlayer isDraw) dts) dts').alpha = 255)) := by
  refine ⟨updatePopup_inactive, fun p dt h _ h255 hdt => updatePopup_active p dt h h255 hdt, ?_⟩
  intro p0 w d dts dts' hdts hdts'
  have hact : (initPopup p0 w d).isActive = true := rfl
  have h0 : (initPopup p0 w d).alpha = 0 := rfl
  obtain ⟨a1, a2, _, _⟩ :=
    fade_bounds dts (initPopup p0 w d) hact (by rw [h0]) (by rw [h0]; norm_num) hdts
  obtain ⟨_, _, b3, b4⟩ :=
    fade_bounds dts' (fade (initPopup p0 w d) dts) (fade_isActive dts _ hact) a1 a2 hdts'
  exact ⟨h0, a1, a2, b3, b4⟩

/-- C10 on a Red win: a tenth of a second brings `alpha` to 60, one more
second saturates it at 255. -/
theorem updatePopup_monotone_bounded_witness :
    (fade (initPopup g_popup_init 1 false) [1 / 10]).alpha = 60 ∧
    (fade (fade (initPopup g_popup_init 1 false) [1 / 10]) [1]).alpha = 255 ∧
    (fade (initPopup g_popup_init 1 false) [1 / 10]).alpha
      ≤ (fade (fade (initPopup g_popup_init 1 false) [1 / 10]) [1]).alpha :=
  ⟨by norm_num [fade, updatePopup, initPopup, FADE_SPEED],
    by norm_num [fade, updatePopup, initPopup, FADE_SPEED],
    (updatePopup_monotone_bounded.2.2 g_popup_init 1 false [1 / 10] [1]
      (by simp) (by simp)).2.2.2.1⟩

/-! ### The coded scan against the specified scan -/

theorem specCountDirLoop_eq_specScanKinds (b : Board) (lastRow lastCol player dr dc : Int)
    (n : Nat) :
    ∀ (i count : Int), specCountDirLoop b lastRow lastCol player dr dc n i count
      = specScanKinds (kindsFrom b lastRow lastCol player dr dc n i) count := by
  induction n with
  | zero => intro i count; simp [specCountDirLoop, kindsFrom, specScanKinds]
  | succ n ih =>
    intro i count
    simp only [specCountDirLoop, kindsFrom, cellKind]
    by_cases hb : inBounds (lastRow + i * dr) (lastCol + i * dc)
    · by_cases hp : b.get (lastRow + i * dr) (lastCol + i * dc) = player
      · simp only [hb, hp, and_self, if_true, decide_True, specScanKinds, ih]
      · simp only [hb, hp, and_false, if_true, if_false, decide_False, specScanKinds, ih]
    · simp only [hb, false_and, if_false, specScanKinds, ih]

/-- Skipping and resetting agree on a window whose out-of-bounds cells lie
at its two ends. -/
theorem scanKinds_eq_specScanKinds (a b c d e f : Option Bool) (m : Bool)
    (h1 : a ≠ none → b ≠ none) (h2 : b ≠ none → c ≠ none)
    (h3 : f ≠ none → e ≠ none) (h4 : e ≠ none → d ≠ none) :
    scanKinds [a, b, c, some m, d, e, f] 0 = specScanKinds [a, b, c, some m, d, e, f] 0 := by
  cases m <;>
  rcases a with _ | _ | _ <;> rcases b with _ | _ | _ <;> rcases c with _ | _ | _ <;>
  rcases d with _ | _ | _ <;> rcases e with _ | _ | _ <;> rcases f with _ | _ | _ <;>
  first
    | (exfalso; revert h1 h2 h3 h4; decide)
    | decide

theorem inBounds_between (lastRow lastCol dr dc : Int) (hin : inBounds lastRow lastCol)
    (hax : (dr, dc) ∈ axes) (i j : Int) (hij : 0 ≤ i ∧ i ≤ j ∨ j ≤ i ∧ i ≤ 0)
    (hj : inBounds (lastRow + j * dr) (lastCol + j * dc)) :
    inBounds (lastRow + i * dr) (lastCol + i * dc) := by
  simp only [axes, List.mem_cons, Prod.mk.injEq, List.mem_singleton, List.not_mem_nil,
    or_false] at hax
  unfold inBounds at *
  rcases hax with ⟨rfl, rfl⟩ | ⟨rfl, rfl⟩ | ⟨rfl, rfl⟩ | ⟨rfl, rfl⟩ <;> omega

theorem countDir_eq_specCountDir (b : Board) (lastRow lastCol player dr dc : Int)
    (hin : inBounds lastRow lastCol) (hax : (dr, dc) ∈ axes) :
    countDir b lastRow lastCol player dr dc = specCountDir b lastRow lastCol player dr dc := by
  have h0 : cellKind b lastRow lastCol player dr dc 0 =
      some (decide (b.get (lastRow + 0 * dr) (lastCol + 0 * dc) = player)) := by
    unfold cellKind
    rw [if_pos (by simpa using hin)]
  unfold countDir specCountDir
  rw [countDirLoop_eq_scanKinds, specCountDirLoop_eq_specScanKinds, kindsFrom_seven, h0]
  apply scanKinds_eq_specScanKinds
  · simp only [cellKind_ne_none]
    exact inBounds_between lastRow lastCol dr dc hin hax (-2) (-3) (by norm_num)
  · simp only [cellKind_ne_none]
    exact inBounds_between lastRow lastCol dr dc hin hax (-1) (-2) (by norm_num)
  · simp only [cellKind_ne_none]
    exact inBounds_between lastRow lastCol dr dc hin hax 2 3 (by norm_num)
  · simp only [cellKind_ne_none]
    exact inBounds_between lastRow lastCol dr dc hin hax 1 2 (by norm_num)

/-- C11: for every board and every in-bounds cell `(lastRow, lastCol)`, on
each of the four direction vectors the coded `countDir` (which passes over
an out-of-bounds cell without touching the counter) returns what the
specified sliding-run scan returns (which resets the counter there), for
whatever `player`, and `checkWin` as coded returns what the specified
`checkWin` returns. -/
theorem checkWin_eq_specCheckWin (b : Board) (lastRow lastCol : Int)
    (hin : inBounds lastRow lastCol) :
    (∀ d ∈ axes, ∀ player : Int,
      countDir b lastRow lastCol player d.1 d.2 = specCountDir b lastRow lastCol player d.1 d.2) ∧
    checkWin b lastRow lastCol = specCheckWin b lastRow lastCol := by
  have hdir : ∀ d ∈ axes, ∀ player : Int,
      countDir b lastRow lastCol player d.1 d.2
        = specCountDir b lastRow lastCol player d.1 d.2 :=
    fun d hd player => countDir_eq_specCountDir b lastRow lastCol player d.1 d.2 hin hd
  refine ⟨hdir, ?_⟩
  have h1 := hdir (0, 1) (by simp [axes]) (b.get lastRow lastCol)
  have h2 := hdir (1, 0) (by simp [axes]) (b.get lastRow lastCol)
  have h3 := hdir (1, 1) (by simp [axes]) (b.get lastRow lastCol)
  have h4 := hdir (1, -1) (by simp [axes]) (b.get lastRow lastCol)
  simp only at h1 h2 h3 h4
  unfold checkWin specCheckWin
  by_cases hne : lastRow = -1
  · rw [if_pos hne, if_pos hne]
  · rw [if_neg hne, if_neg hne]
    simp only []
    rw [h1, h2, h3, h4]
    generalize specCountDir b lastRow lastCol (b.get lastRow lastCol) 0 1 = c1
    generalize specCountDir b lastRow lastCol (b.get lastRow lastCol) 1 0 = c2
    generalize specCountDir b lastRow lastCol (b.get lastRow lastCol) 1 1 = c3
    generalize specCountDir b lastRow lastCol (b.get lastRow lastCol) 1 (-1) = c4
    cases c1 <;> cases c2 <;> cases c3 <;> cases c4 <;> rfl

/-- C11 on `edgeStack`, last move at `(2, 6)`: the vertical window starts
one row above the board, and both scans report the win. -/
theorem checkWin_eq_specCheckWin_witness :
    inBounds 2 6 ∧ checkWin edgeStack 2 6 = true ∧ specCheckWin edgeStack 2 6 = true ∧
    checkWin edgeStack 2 6 = specCheckWin edgeStack 2 6 :=
  ⟨by decide, by decide, by decide, (checkWin_eq_specCheckWin edgeStack 2 6 (by decide)).2⟩

end Connect4
